import Mathlib

/-!
Shallow embedding of the aggregation-and-achievement pipeline of the
leaderboard GitHub scraper: the batching utility, the PR average
turn-around-time aggregate engine, the tiered badge achievement engine,
and the conflict-aware bulk upserts of the record store, together with
theorems settling the specification's claims about them.

Modelling conventions: JS numbers that carry data are rationals (ℚ),
timestamps are integers (milliseconds), JS `Map`/`Set` insertion-order
semantics are association lists built in first-occurrence order, and the
record store is an association list keyed by each entity's identity.
-/

namespace Scraper

/-- JS `Math.round` on a rational: `floor(q + 1/2)` (round half toward +∞),
returned as a rational since JS numbers are untyped. -/
def jsRound (q : ℚ) : ℚ := ((⌊q + 1/2⌋ : ℤ) : ℚ)

/-- `lib/db.ts` `batchArray`: slices `array.slice(i, i + batchSize)` for
`i = 0, batchSize, 2*batchSize, ...`.  For `batchSize = 0` the JS loop
would not terminate; we return `[]` there (every claim assumes a positive
chunk size). -/
def batchArray {α : Type} (array : List α) (batchSize : Nat) : List (List α) :=
  match array, batchSize with
  | [], _ => []
  | _ :: _, 0 => []
  | a :: rest, n + 1 =>
      (a :: rest).take (n + 1) :: batchArray ((a :: rest).drop (n + 1)) (n + 1)
termination_by array.length
decreasing_by
  simp only [List.length_drop, List.length_cons]
  omega

theorem batchArray_nil {α : Type} (n : Nat) : batchArray ([] : List α) n = [] := by
  rw [batchArray]

theorem batchArray_cons {α : Type} (l : List α) (n : Nat) (hn : n ≠ 0) (hl : l ≠ []) :
    batchArray l n = l.take n :: batchArray (l.drop n) n := by
  match l, n with
  | [], _ => exact absurd rfl hl
  | _ :: _, 0 => exact absurd rfl hn
  | a :: rest, m + 1 => rw [batchArray]

theorem batchArray_eq_nil_iff {α : Type} (l : List α) (n : Nat) (hn : n ≠ 0) :
    batchArray l n = [] ↔ l = [] := by
  constructor
  · intro h
    by_contra hl
    rw [batchArray_cons l n hn hl] at h
    exact List.cons_ne_nil _ _ h
  · intro h; subst h; exact batchArray_nil n

theorem join_batchArray {α : Type} (l : List α) (n : Nat) (hn : n ≠ 0) :
    (batchArray l n).flatten = l := by
  induction l, n using batchArray.induct with
  | case1 n => rw [batchArray_nil]; rfl
  | case2 a rest => exact absurd rfl hn
  | case3 a rest m ih =>
    rw [batchArray, List.flatten_cons, ih (Nat.succ_ne_zero m), List.take_append_drop]

theorem batchArray_chunk_le {α : Type} (l : List α) (n : Nat) :
    ∀ c ∈ batchArray l n, c.length ≤ n := by
  induction l, n using batchArray.induct with
  | case1 n => intro c hc; rw [batchArray_nil] at hc; simp at hc
  | case2 a rest => intro c hc; rw [batchArray] at hc; simp at hc
  | case3 a rest m ih =>
    rw [batchArray]
    intro c hc
    rcases List.mem_cons.mp hc with hc | hc
    · subst hc
      simp
    · exact ih c hc

theorem batchArray_full_chunks {α : Type} (l : List α) (n : Nat) (hn : n ≠ 0) :
    ∀ i, i + 1 < (batchArray l n).length → ((batchArray l n).getD i []).length = n := by
  induction l, n using batchArray.induct with
  | case1 n => intro i hi; rw [batchArray_nil] at hi; simp at hi
  | case2 a rest => exact absurd rfl hn
  | case3 a rest m ih =>
    rw [batchArray]
    intro i hi
    cases i with
    | zero =>
      simp only [List.getD_cons_zero, List.length_take]
      -- the tail is nonempty, so the list has more than m + 1 elements
      simp only [List.length_cons] at hi
      have htail : batchArray ((a :: rest).drop (m + 1)) (m + 1) ≠ [] := by
        intro hnil
        rw [hnil] at hi
        simp at hi
      have hdrop : (a :: rest).drop (m + 1) ≠ [] := by
        intro hdn
        exact htail (by rw [hdn]; exact batchArray_nil (m + 1))
      have hlen : m + 1 < (a :: rest).length := by
        by_contra hle
        push_neg at hle
        exact hdrop (List.drop_eq_nil_of_le hle)
      omega
    | succ j =>
      simp only [List.getD_cons_succ]
      simp only [List.length_cons] at hi
      exact ih (Nat.succ_ne_zero m) j (by omega)

/-- Model of the JS idiom `[...new Set(xs)]` used in `addContributors` and
`updateBotRoles` ("Remove duplicates"): keeps each element's first
occurrence, preserving order. -/
def removeDuplicates {α : Type} [DecidableEq α] : List α → List α
  | [] => []
  | x :: xs => x :: removeDuplicates (xs.filter (fun a => a ≠ x))
termination_by l => l.length
decreasing_by
  have := List.length_filter_le (fun a => decide (a ≠ x)) xs
  simp only [List.length_cons]
  omega

/-- Independent specification of "the duplicate-free list that keeps the
first occurrence of each element in order": recurse first, filter after. -/
def keepFirstOccurrences {α : Type} [DecidableEq α] : List α → List α
  | [] => []
  | x :: xs => x :: (keepFirstOccurrences xs).filter (fun a => a ≠ x)

theorem mem_removeDuplicates {α : Type} [DecidableEq α] (l : List α) (a : α) :
    a ∈ removeDuplicates l ↔ a ∈ l := by
  induction l using removeDuplicates.induct with
  | case1 => simp [removeDuplicates]
  | case2 x xs ih =>
    rw [removeDuplicates]
    simp only [List.mem_cons, ih, List.mem_filter]
    by_cases hax : a = x
    · simp [hax]
    · simp [hax]

theorem nodup_removeDuplicates {α : Type} [DecidableEq α] (l : List α) :
    (removeDuplicates l).Nodup := by
  induction l using removeDuplicates.induct with
  | case1 => simp [removeDuplicates]
  | case2 x xs ih =>
    rw [removeDuplicates]
    refine List.nodup_cons.mpr ⟨?_, ih⟩
    rw [mem_removeDuplicates]
    simp

theorem removeDuplicates_of_nodup {α : Type} [DecidableEq α] (l : List α)
    (h : l.Nodup) : removeDuplicates l = l := by
  induction l using removeDuplicates.induct with
  | case1 => rw [removeDuplicates]
  | case2 x xs ih =>
    rw [removeDuplicates]
    rcases List.nodup_cons.mp h with ⟨hx, hxs⟩
    have hfix : xs.filter (fun a => a ≠ x) = xs := by
      apply List.filter_eq_self.mpr
      intro a ha
      simp only [ne_eq, decide_eq_true_eq]
      intro hax
      exact hx (hax ▸ ha)
    rw [hfix] at ih ⊢
    rw [ih hxs]

theorem removeDuplicatesFilterAux {α : Type} [DecidableEq α] (p : α → Bool) :
    ∀ (n : Nat) (l : List α), l.length ≤ n →
      removeDuplicates (l.filter p) = (removeDuplicates l).filter p := by
  intro n
  induction n with
  | zero =>
    intro l hl
    have hnil : l = [] := List.eq_nil_of_length_eq_zero (Nat.le_zero.mp hl)
    subst hnil
    simp [removeDuplicates]
  | succ n ih =>
    intro l hl
    match l with
    | [] => simp [removeDuplicates]
    | x :: xs =>
      have hxs : xs.length ≤ n := by
        simp only [List.length_cons] at hl
        omega
      rw [removeDuplicates]
      have hlenf : (xs.filter (fun a => a ≠ x)).length ≤ n := by
        have := List.length_filter_le (fun a => decide (a ≠ x)) xs
        omega
      by_cases hpx : p x
      · rw [List.filter_cons_of_pos hpx, removeDuplicates,
          List.filter_cons_of_pos hpx]
        congr 1
        rw [List.filter_filter, ← ih (xs.filter (fun a => a ≠ x)) hlenf,
          List.filter_filter]
        congr 1
        apply List.filter_congr
        intro a _
        exact Bool.and_comm _ _
      · rw [List.filter_cons_of_neg hpx, List.filter_cons_of_neg hpx,
          ← ih (xs.filter (fun a => a ≠ x)) hlenf, List.filter_filter]
        congr 1
        apply List.filter_congr
        intro a _
        by_cases hax : a = x
        · subst hax
          simp [hpx]
        · simp [hax]

theorem removeDuplicates_filter {α : Type} [DecidableEq α] (p : α → Bool) (l : List α) :
    removeDuplicates (l.filter p) = (removeDuplicates l).filter p :=
  removeDuplicatesFilterAux p l.length l le_rfl

theorem removeDuplicates_eq_keepFirstOccurrences {α : Type} [DecidableEq α]
    (l : List α) : removeDuplicates l = keepFirstOccurrences l := by
  induction l with
  | nil => rw [removeDuplicates, keepFirstOccurrences]
  | cons x xs ih =>
    rw [removeDuplicates, keepFirstOccurrences, removeDuplicates_filter, ih]

/-- Association-list lookup modelling a keyed table: first matching key wins
(keys are unique in every store we build, so this is exact). -/
def assocFind {κ β : Type} [DecidableEq κ] : List (κ × β) → κ → Option β
  | [], _ => none
  | (k, v) :: rest, k' => if k = k' then some v else assocFind rest k'

/-- Association-list update modelling `ON CONFLICT ... DO UPDATE`: replace
the value at the key if present, append a fresh row otherwise. -/
def setAssoc {κ β : Type} [DecidableEq κ] : List (κ × β) → κ → β → List (κ × β)
  | [], k, v => [(k, v)]
  | (k0, v0) :: rest, k, v =>
      if k0 = k then (k0, v) :: rest else (k0, v0) :: setAssoc rest k v

theorem assocFind_append {κ β : Type} [DecidableEq κ] (s t : List (κ × β)) (k : κ) :
    assocFind (s ++ t) k = ((assocFind s k).rec (assocFind t k) fun v => some v) := by
  induction s with
  | nil => simp [assocFind]
  | cons kv rest ih =>
    rcases kv with ⟨k0, v0⟩
    by_cases hk : k0 = k
    · simp [assocFind, hk]
    · simp [assocFind, hk, ih]

theorem assocFind_append_left {κ β : Type} [DecidableEq κ] (s t : List (κ × β))
    (k : κ) (v : β) (h : assocFind s k = some v) :
    assocFind (s ++ t) k = some v := by
  rw [assocFind_append, h]

theorem assocFind_setAssoc_self {κ β : Type} [DecidableEq κ] (s : List (κ × β))
    (k : κ) (v : β) : assocFind (setAssoc s k v) k = some v := by
  induction s with
  | nil => simp [setAssoc, assocFind]
  | cons kv rest ih =>
    rcases kv with ⟨k0, v0⟩
    by_cases hk : k0 = k
    · simp [setAssoc, hk, assocFind]
    · simp [setAssoc, hk, assocFind, ih]

/-- C4: `batchArray` partitions its input into contiguous chunks:
concatenating the chunks reproduces the array exactly, every chunk is at
most `batchSize` long, and every chunk except possibly the final one is
exactly `batchSize` long. -/
theorem batchArray_partition {α : Type} (array : List α) (batchSize : Nat)
    (hn : 0 < batchSize) :
    (batchArray array batchSize).flatten = array ∧
      (∀ c ∈ batchArray array batchSize, c.length ≤ batchSize) ∧
      (∀ i, i + 1 < (batchArray array batchSize).length →
        ((batchArray array batchSize).getD i []).length = batchSize) :=
  ⟨join_batchArray array batchSize (Nat.pos_iff_ne_zero.mp hn),
   batchArray_chunk_le array batchSize,
   batchArray_full_chunks array batchSize (Nat.pos_iff_ne_zero.mp hn)⟩

/-- Witness for C4 at a concrete array and chunk size. -/
theorem batchArray_partition_witness :
    (batchArray [10, 20, 30, 40, 50] 2).flatten = [10, 20, 30, 40, 50] ∧
      (∀ c ∈ batchArray [10, 20, 30, 40, 50] 2, c.length ≤ 2) ∧
      (∀ i, i + 1 < (batchArray [10, 20, 30, 40, 50] 2).length →
        ((batchArray ([10, 20, 30, 40, 50] : List Nat) 2).getD i []).length = 2) :=
  batchArray_partition [10, 20, 30, 40, 50] 2 (by decide)

/-- `types/db.ts` `AggregateValue`: tagged union of duration, number and
string values (JS numbers modelled as rationals). -/
inductive AggregateValue : Type where
  | duration (value : ℚ)
  | number (value : ℚ)
  | str (value : String)
deriving DecidableEq

/-- `types/db.ts` `ContributorAggregate`. -/
structure ContributorAggregate : Type where
  aggregate : String
  contributor : String
  value : AggregateValue
deriving DecidableEq

/-- `types/db.ts` `GlobalAggregate`: slug, name, description and a nullable
current value. -/
structure GlobalAggregate : Type where
  slug : String
  name : String
  description : Option String
  value : Option AggregateValue
deriving DecidableEq

/-- One row of the aggregate query in `calculateAndUpsertPRAvgTAT`:
`SELECT contributor, (meta->>'pr_avg_tat')::numeric ...` followed by
`Number(row.pr_avg_tat)` — `none` models a value whose conversion is NaN
(not a valid number). -/
structure TATRow : Type where
  contributor : String
  pr_avg_tat : Option ℚ
deriving DecidableEq

/-- One step of the grouping loop: `contributorTATs.get(contributor).push(tat)`
on a JS `Map` in insertion order (append a fresh singleton entry when the
contributor is new). -/
def pushTAT : List (String × List ℚ) → String → ℚ → List (String × List ℚ)
  | [], c, t => [(c, [t])]
  | (k, vs) :: rest, c, t =>
      if k = c then (k, vs ++ [t]) :: rest else (k, vs) :: pushTAT rest c t

/-- One iteration of the grouping loop of `calculateAndUpsertPRAvgTAT`:
`if (!isNaN(tat))` push the value into the contributor's group and into
`allTATs`, otherwise skip the row. -/
def tatStep (acc : List (String × List ℚ) × List ℚ) (row : TATRow) :
    List (String × List ℚ) × List ℚ :=
  match row.pr_avg_tat with
  | none => acc
  | some t => (pushTAT acc.1 row.contributor t, acc.2 ++ [t])

/-- The grouping loop of `calculateAndUpsertPRAvgTAT`: skip rows whose
turn-around value is NaN, group the rest per contributor, and accumulate
the combined `allTATs` list. -/
def collectTATs (rows : List TATRow) : List (String × List ℚ) × List ℚ :=
  rows.foldl tatStep ([], [])

/-- The contributor-aggregate construction of `calculateAndUpsertPRAvgTAT`:
one `pr_avg_tat` duration aggregate per grouped contributor, holding
`Math.round` of the arithmetic mean of their values. -/
def mkContributorAggregates (groups : List (String × List ℚ)) :
    List ContributorAggregate :=
  groups.map fun g =>
    { aggregate := "pr_avg_tat"
      contributor := g.1
      value := .duration (jsRound (g.2.sum / (g.2.length : ℚ))) }

/-- The global-average computation of `calculateAndUpsertPRAvgTAT`:
`Math.round` of the mean of all values, or `null` when there are none. -/
def globalAvgOf (allTATs : List ℚ) : Option ℚ :=
  if allTATs.length > 0 then
    some (jsRound (allTATs.sum / (allTATs.length : ℚ)))
  else none

/-- The record store's aggregate tables: `global_aggregate` keyed by slug and
`contributor_aggregate` keyed by (aggregate, contributor). -/
structure AggStore : Type where
  globals : List (String × GlobalAggregate)
  contribs : List ((String × String) × AggregateValue)
deriving DecidableEq

/-- `lib/db.ts` `upsertGlobalAggregates`: early return on an empty batch,
otherwise batched `INSERT ... ON CONFLICT (slug) DO UPDATE SET name,
description, value` (a full replacement of the non-key fields). -/
def upsertGlobalAggregates (aggregates : List GlobalAggregate) (s : AggStore) :
    AggStore :=
  if aggregates.length = 0 then s
  else
    (batchArray aggregates 1000).foldl
      (fun st batch =>
        batch.foldl
          (fun st a => { st with globals := setAssoc st.globals a.slug a }) st)
      s

/-- `lib/db.ts` `upsertContributorAggregates`: early return on an empty
batch, otherwise batched `INSERT ... ON CONFLICT (aggregate, contributor)
DO UPDATE SET value`. -/
def upsertContributorAggregates (aggregates : List ContributorAggregate)
    (s : AggStore) : AggStore :=
  if aggregates.length = 0 then s
  else
    (batchArray aggregates 1000).foldl
      (fun st batch =>
        batch.foldl
          (fun st a =>
            { st with
              contribs := setAssoc st.contribs (a.aggregate, a.contributor) a.value })
          st)
      s

/-- `scripts/...` `calculateAndUpsertPRAvgTAT`: group the queried rows,
compute contributor means and the global mean, and upsert whatever is
non-empty (contributor aggregates only when at least one exists, the global
aggregate only when the combined value set is non-empty). -/
def calculateAndUpsertPRAvgTAT (rows : List TATRow) (s : AggStore) : AggStore :=
  let contributorTATs := (collectTATs rows).1
  let allTATs := (collectTATs rows).2
  let contributorAggregates := mkContributorAggregates contributorTATs
  let globalAvg := globalAvgOf allTATs
  let s1 :=
    if contributorAggregates.length > 0 then
      upsertContributorAggregates contributorAggregates s
    else s
  match globalAvg with
  | some g =>
      upsertGlobalAggregates
        [{ slug := "pr_avg_tat"
           name := "PR Avg. Turn-Around Time"
           description :=
             some "Average time taken to get a PR merged since it has been opened"
           value := some (.duration g) }] s1
  | none => s1

/-- The qualifying turn-around values of one contributor, in row order. -/
def validTATs (rows : List TATRow) (c : String) : List ℚ :=
  rows.filterMap fun row =>
    if row.contributor = c then row.pr_avg_tat else none

theorem assocFind_pushTAT (m : List (String × List ℚ)) (c c' : String) (t : ℚ) :
    assocFind (pushTAT m c t) c' =
      if c' = c then
        some ((assocFind m c).getD [] ++ [t])
      else assocFind m c' := by
  induction m with
  | nil =>
    by_cases h : c' = c
    · subst h
      simp [pushTAT, assocFind]
    · have h2 : ¬ c = c' := fun hh => h hh.symm
      simp [pushTAT, assocFind, h, h2]
  | cons kv rest ih =>
    rcases kv with ⟨k, vs⟩
    by_cases hk : k = c
    · subst hk
      by_cases h : c' = k
      · subst h
        simp [pushTAT, assocFind]
      · have h2 : ¬ k = c' := fun hh => h hh.symm
        simp [pushTAT, assocFind, h, h2]
    · by_cases h : c' = c
      · subst h
        simp [pushTAT, assocFind, hk, ih]
      · by_cases h3 : k = c'
        · subst h3
          simp [pushTAT, assocFind, hk, h, ih]
        · simp [pushTAT, assocFind, hk, h, h3, ih]

theorem validTATs_cons_none (row : TATRow) (rows : List TATRow) (c : String)
    (h : row.pr_avg_tat = none) :
    validTATs (row :: rows) c = validTATs rows c := by
  simp only [validTATs, List.filterMap_cons]
  by_cases hc : row.contributor = c <;> simp [hc, h]

theorem validTATs_cons_some (row : TATRow) (rows : List TATRow) (t : ℚ)
    (h : row.pr_avg_tat = some t) (c : String) :
    validTATs (row :: rows) c =
      if row.contributor = c then t :: validTATs rows c else validTATs rows c := by
  simp only [validTATs, List.filterMap_cons]
  by_cases hc : row.contributor = c <;> simp [hc, h]

theorem foldl_tatStep_fst_some (rows : List TATRow) :
    ∀ (m : List (String × List ℚ)) (l : List ℚ) (c : String) (vs : List ℚ),
      assocFind m c = some vs →
      assocFind (rows.foldl tatStep (m, l)).1 c = some (vs ++ validTATs rows c) := by
  induction rows with
  | nil =>
    intro m l c vs h
    simp [validTATs, h]
  | cons row rows ih =>
    intro m l c vs h
    rcases hrow : row.pr_avg_tat with _ | t
    · rw [List.foldl_cons]
      have hstep : tatStep (m, l) row = (m, l) := by simp [tatStep, hrow]
      rw [hstep, validTATs_cons_none row rows c hrow]
      exact ih m l c vs h
    · rw [List.foldl_cons]
      have hstep : tatStep (m, l) row = (pushTAT m row.contributor t, l ++ [t]) := by
        simp [tatStep, hrow]
      rw [hstep, validTATs_cons_some row rows t hrow c]
      by_cases hc : row.contributor = c
      · rw [if_pos hc]
        have hfind : assocFind (pushTAT m row.contributor t) c = some (vs ++ [t]) := by
          rw [hc, assocFind_pushTAT, if_pos rfl, h]
          rfl
        rw [ih (pushTAT m row.contributor t) (l ++ [t]) c (vs ++ [t]) hfind,
          List.append_assoc]
        rfl
      · rw [if_neg hc]
        have hfind : assocFind (pushTAT m row.contributor t) c = some vs := by
          rw [assocFind_pushTAT, if_neg (fun hh => hc hh.symm), h]
        exact ih _ _ c vs hfind

theorem foldl_tatStep_fst_none (rows : List TATRow) :
    ∀ (m : List (String × List ℚ)) (l : List ℚ) (c : String),
      assocFind m c = none →
      assocFind (rows.foldl tatStep (m, l)).1 c =
        if validTATs rows c = [] then none else some (validTATs rows c) := by
  induction rows with
  | nil =>
    intro m l c h
    simp [validTATs, h]
  | cons row rows ih =>
    intro m l c h
    rcases hrow : row.pr_avg_tat with _ | t
    · rw [List.foldl_cons]
      have hstep : tatStep (m, l) row = (m, l) := by simp [tatStep, hrow]
      rw [hstep, validTATs_cons_none row rows c hrow]
      exact ih m l c h
    · rw [List.foldl_cons]
      have hstep : tatStep (m, l) row = (pushTAT m row.contributor t, l ++ [t]) := by
        simp [tatStep, hrow]
      rw [hstep, validTATs_cons_some row rows t hrow c]
      by_cases hc : row.contributor = c
      · rw [if_pos hc]
        have hfind : assocFind (pushTAT m row.contributor t) c = some [t] := by
          rw [hc, assocFind_pushTAT, if_pos rfl, h]
          rfl
        rw [foldl_tatStep_fst_some rows (pushTAT m row.contributor t) (l ++ [t]) c
          [t] hfind]
        simp
      · rw [if_neg hc]
        have hfind : assocFind (pushTAT m row.contributor t) c = none := by
          rw [assocFind_pushTAT, if_neg (fun hh => hc hh.symm), h]
        exact ih _ _ c hfind

/-- The grouped map of `collectTATs`, looked up at a contributor, is exactly
that contributor's list of qualifying values in row order. -/
theorem collectTATs_fst_assocFind (rows : List TATRow) (c : String) :
    assocFind (collectTATs rows).1 c =
      if validTATs rows c = [] then none else some (validTATs rows c) :=
  foldl_tatStep_fst_none rows [] [] c rfl

theorem foldl_tatStep_snd (rows : List TATRow) :
    ∀ (m : List (String × List ℚ)) (l : List ℚ),
      (rows.foldl tatStep (m, l)).2 = l ++ rows.filterMap (·.pr_avg_tat) := by
  induction rows with
  | nil => intro m l; simp
  | cons row rows ih =>
    intro m l
    rcases hrow : row.pr_avg_tat with _ | t
    · have hstep : tatStep (m, l) row = (m, l) := by simp [tatStep, hrow]
      rw [List.foldl_cons, hstep, List.filterMap_cons, hrow, ih]
    · have hstep : tatStep (m, l) row = (pushTAT m row.contributor t, l ++ [t]) := by
        simp [tatStep, hrow]
      rw [List.foldl_cons, hstep, List.filterMap_cons, hrow,
        ih (pushTAT m row.contributor t) (l ++ [t]), List.append_assoc]
      rfl

/-- The combined `allTATs` list of `collectTATs` is the list of all
qualifying values in row order. -/
theorem collectTATs_snd (rows : List TATRow) :
    (collectTATs rows).2 = rows.filterMap (·.pr_avg_tat) := by
  rw [collectTATs, foldl_tatStep_snd rows [] []]
  rfl

theorem foldl_tatStep_all_none (rows : List TATRow)
    (h : ∀ r ∈ rows, r.pr_avg_tat = none) :
    ∀ (m : List (String × List ℚ)) (l : List ℚ),
      rows.foldl tatStep (m, l) = (m, l) := by
  induction rows with
  | nil => intro m l; rfl
  | cons row rows ih =>
    intro m l
    have hrow : row.pr_avg_tat = none := h row (List.mem_cons_self row rows)
    have hstep : tatStep (m, l) row = (m, l) := by simp [tatStep, hrow]
    rw [List.foldl_cons, hstep]
    exact ih (fun r hr => h r (List.mem_cons_of_mem row hr)) m l

theorem assocFind_some_mem {κ β : Type} [DecidableEq κ] (m : List (κ × β))
    (k : κ) (v : β) (h : assocFind m k = some v) : (k, v) ∈ m := by
  induction m with
  | nil => simp [assocFind] at h
  | cons kv rest ih =>
    rcases kv with ⟨k0, v0⟩
    by_cases hk : k0 = k
    · subst hk
      rw [assocFind, if_pos rfl] at h
      injection h with h
      subst h
      exact List.mem_cons_self _ _
    · rw [assocFind, if_neg hk] at h
      exact List.mem_cons_of_mem _ (ih h)

/-- `Math.round` of an integer value is that value. -/
theorem jsRound_intCast (v : ℤ) : jsRound ((v : ℚ)) = (v : ℚ) := by
  rw [jsRound, Int.floor_int_add]
  norm_num

/-- C1: for contributor A with qualifying turn-around values [10, 20, 30] and
contributor B with [5], the engine computes A's contributor aggregate as
round(60/3) = 20 and B's as 5, and the global aggregate as
round((10+20+30+5)/4) = 16, each a "duration" value under the "pr_avg_tat"
slug; in general every contributor with at least one qualifying value
receives the rounded arithmetic mean of their values, and a contributor
with exactly one (integer) value receives that value. -/
theorem prAvgTAT_aggregate_means :
    (mkContributorAggregates (collectTATs
        [⟨"A", some 10⟩, ⟨"A", some 20⟩, ⟨"A", some 30⟩, ⟨"B", some 5⟩]).1 =
      [{ aggregate := "pr_avg_tat", contributor := "A", value := .duration 20 },
       { aggregate := "pr_avg_tat", contributor := "B", value := .duration 5 }]) ∧
    globalAvgOf (collectTATs
        [⟨"A", some 10⟩, ⟨"A", some 20⟩, ⟨"A", some 30⟩, ⟨"B", some 5⟩]).2 =
      some (jsRound ((10 + 20 + 30 + 5) / 4)) ∧
    jsRound ((10 + 20 + 30 + 5) / 4) = 16 ∧
    (∀ (rows : List TATRow) (c : String), validTATs rows c ≠ [] →
      { aggregate := "pr_avg_tat", contributor := c,
        value := .duration (jsRound
          ((validTATs rows c).sum / ((validTATs rows c).length : ℚ))) }
        ∈ mkContributorAggregates (collectTATs rows).1) ∧
    (∀ (rows : List TATRow) (c : String) (v : ℤ),
      validTATs rows c = [(v : ℚ)] →
      { aggregate := "pr_avg_tat", contributor := c,
        value := .duration ((v : ℚ)) }
        ∈ mkContributorAggregates (collectTATs rows).1) := by
  have hgen : ∀ (rows : List TATRow) (c : String), validTATs rows c ≠ [] →
      { aggregate := "pr_avg_tat", contributor := c,
        value := .duration (jsRound
          ((validTATs rows c).sum / ((validTATs rows c).length : ℚ))) }
        ∈ mkContributorAggregates (collectTATs rows).1 := by
    intro rows c h
    have hfind : assocFind (collectTATs rows).1 c = some (validTATs rows c) := by
      rw [collectTATs_fst_assocFind, if_neg h]
    have hmem := assocFind_some_mem _ _ _ hfind
    exact List.mem_map_of_mem _ hmem
  refine ⟨?_, ?_, ?_, hgen, ?_⟩
  · simp +decide [collectTATs, tatStep, pushTAT, mkContributorAggregates]
    norm_num [jsRound]
  · simp +decide [collectTATs, tatStep, pushTAT, globalAvgOf]
    norm_num [jsRound]
  · norm_num [jsRound]
  · intro rows c v hv
    have h1 := hgen rows c (by rw [hv]; exact List.cons_ne_nil _ _)
    rw [hv] at h1
    simpa [jsRound_intCast v] using h1

/-- Witness for the general conjuncts of C1 at a one-row log. -/
theorem prAvgTAT_aggregate_means_witness :
    ({ aggregate := "pr_avg_tat", contributor := "C",
        value := .duration (jsRound
          ((validTATs [⟨"C", some 7⟩] "C").sum /
            ((validTATs [⟨"C", some 7⟩] "C").length : ℚ))) }
      ∈ mkContributorAggregates (collectTATs [⟨"C", some 7⟩]).1) ∧
    ({ aggregate := "pr_avg_tat", contributor := "C",
        value := .duration (((7 : ℤ) : ℚ)) }
      ∈ mkContributorAggregates (collectTATs [⟨"C", some 7⟩]).1) :=
  ⟨prAvgTAT_aggregate_means.2.2.2.1 [⟨"C", some 7⟩] "C" (by simp [validTATs]),
   prAvgTAT_aggregate_means.2.2.2.2 [⟨"C", some 7⟩] "C" 7 (by simp [validTATs])⟩

/-- C8: a PR-merged record whose turn-around value is not a valid number is
skipped: the aggregate computation over a log containing it produces
exactly the result of the same log without it, so one malformed record
never aborts or alters the rest of the computation. -/
theorem prAvgTAT_skips_malformed (rows1 rows2 : List TATRow) (bad : TATRow)
    (s : AggStore) (h : bad.pr_avg_tat = none) :
    calculateAndUpsertPRAvgTAT (rows1 ++ bad :: rows2) s =
      calculateAndUpsertPRAvgTAT (rows1 ++ rows2) s := by
  have hcoll : collectTATs (rows1 ++ bad :: rows2) = collectTATs (rows1 ++ rows2) := by
    rw [collectTATs, collectTATs, List.foldl_append, List.foldl_append,
      List.foldl_cons]
    have hstep : tatStep (rows1.foldl tatStep ([], [])) bad
        = rows1.foldl tatStep ([], []) := by
      rw [tatStep, h]
    rw [hstep]
  simp only [calculateAndUpsertPRAvgTAT, hcoll]

/-- Witness for C8 at a concrete log, malformed record and store. -/
theorem prAvgTAT_skips_malformed_witness :
    calculateAndUpsertPRAvgTAT
        ([⟨"A", some 10⟩] ++ ⟨"B", none⟩ :: [⟨"A", some 30⟩]) ⟨[], []⟩ =
      calculateAndUpsertPRAvgTAT ([⟨"A", some 10⟩] ++ [⟨"A", some 30⟩]) ⟨[], []⟩ :=
  prAvgTAT_skips_malformed [⟨"A", some 10⟩] [⟨"A", some 30⟩] ⟨"B", none⟩ ⟨[], []⟩ rfl

/-- C9: when no row carries a valid turn-around value, the aggregate engine
writes nothing: the store (global and contributor aggregates alike) is
returned untouched, and the outcome is an ordinary result, not an error. -/
theorem prAvgTAT_empty_no_writes (rows : List TATRow) (s : AggStore)
    (h : ∀ r ∈ rows, r.pr_avg_tat = none) :
    calculateAndUpsertPRAvgTAT rows s = s := by
  have hcoll : collectTATs rows = ([], []) := by
    rw [collectTATs]
    exact foldl_tatStep_all_none rows h [] []
  simp [calculateAndUpsertPRAvgTAT, hcoll, mkContributorAggregates, globalAvgOf]

/-- Witness for C9 at a log with one malformed row and a non-empty store. -/
theorem prAvgTAT_empty_no_writes_witness :
    calculateAndUpsertPRAvgTAT [⟨"A", none⟩]
        ⟨[("pr_avg_tat",
          { slug := "pr_avg_tat", name := "PR Avg. Turn-Around Time",
            description := none, value := some (.duration 42) })], []⟩ =
      ⟨[("pr_avg_tat",
        { slug := "pr_avg_tat", name := "PR Avg. Turn-Around Time",
          description := none, value := some (.duration 42) })], []⟩ :=
  prAvgTAT_empty_no_writes [⟨"A", none⟩] _ (by decide)

/-- `types/db.ts` `Activity`: one observed event (JS `Date` modelled as an
integer timestamp, the JSON-stringified `meta` as an optional string). -/
structure ActivityRec : Type where
  slug : String
  contributor : String
  activity_definition : String
  title : Option String
  occured_at : Int
  link : Option String
  text : Option String
  points : Option ℚ
  meta : Option String
deriving DecidableEq

/-- SQL `MIN(...)` over a column: `none` on an empty group. -/
def sqlMin : List Int → Option Int
  | [] => none
  | t :: ts =>
      match sqlMin ts with
      | none => some t
      | some m => some (min t m)

/-- The per-contributor result row of `getPRMergedCounts`:
`COUNT(*)` and `MIN(occured_at)` of the contributor's PR-merged group. -/
structure PRCount : Type where
  count : Nat
  first_merged_at : Int
deriving DecidableEq

/-- The `WHERE activity_definition = 'pr_merged'` selection of
`getPRMergedCounts`. -/
def mergedActs (acts : List ActivityRec) : List ActivityRec :=
  acts.filter fun a => a.activity_definition = "pr_merged"

/-- One contributor's group of PR-merged timestamps. -/
def mergedTimes (acts : List ActivityRec) (c : String) : List Int :=
  ((mergedActs acts).filter fun a => a.contributor = c).map (·.occured_at)

/-- `getPRMergedCounts`, modelling its grouped SQL query
`SELECT contributor, COUNT(*) as count, MIN(occured_at) as first_merged_at
FROM activity WHERE activity_definition = 'pr_merged' GROUP BY contributor`:
one entry per distinct contributor among the PR-merged activities, holding
the group's size and minimum timestamp (each group is non-empty, so the
`getD 0` default is never reached). -/
def getPRMergedCounts (acts : List ActivityRec) : List (String × PRCount) :=
  (removeDuplicates ((mergedActs acts).map (·.contributor))).map fun c =>
    (c, { count := (mergedTimes acts c).length
          first_merged_at := (sqlMin (mergedTimes acts c)).getD 0 })

/-- The threshold ladder of `awardProblemSolvingBadges`. -/
def thresholds : List (String × Nat) :=
  [("1x", 2), ("2x", 16), ("3x", 128), ("4x", 1024), ("5x", 8192)]

/-- `types/db.ts` `ContributorBadge`, with the three fields of its `meta`
object inlined. -/
structure ContributorBadge : Type where
  slug : String
  badge : String
  contributor : String
  variant : String
  achieved_on : Int
  meta_pr_count : Nat
  meta_threshold : Nat
  meta_awarded_by : String
deriving DecidableEq

/-- The inner loop of `awardProblemSolvingBadges` for one contributor: one
candidate award per threshold with `count >= required`, achieved on the
first-merged-PR date, with count/threshold metadata. -/
def badgeCandidatesFor (contributor : String) (pc : PRCount) :
    List ContributorBadge :=
  thresholds.filterMap fun th =>
    if th.2 ≤ pc.count then
      some
        { slug := "problem_solving__" ++ contributor ++ "__" ++ th.1
          badge := "problem_solving"
          contributor := contributor
          variant := th.1
          achieved_on := pc.first_merged_at
          meta_pr_count := pc.count
          meta_threshold := th.2
          meta_awarded_by := "automated" }
    else none

/-- `awardProblemSolvingBadges`: all candidate awards over all contributors
of the PR-merged count map. -/
def awardProblemSolvingBadges (prCounts : List (String × PRCount)) :
    List ContributorBadge :=
  prCounts.flatMap fun e => badgeCandidatesFor e.1 e.2

/-- One row of a badge `INSERT ... ON CONFLICT DO NOTHING`: keep the store
untouched when the composite slug exists, insert and count the row
otherwise. -/
def badgeInsertStep (acc : List (String × ContributorBadge) × Nat)
    (b : ContributorBadge) : List (String × ContributorBadge) × Nat :=
  match assocFind acc.1 b.slug with
  | some _ => acc
  | none => (acc.1 ++ [(b.slug, b)], acc.2 + 1)

/-- Modelled from the spec: `upsertContributorBadges` is not under `src/`
(only its documented contract is): it awards badges with a batched
`INSERT ... ON CONFLICT DO NOTHING` keyed by the composite badge slug —
existing rows are left untouched — and reports how many rows were actually
inserted. -/
def upsertContributorBadges (badges : List ContributorBadge)
    (store : List (String × ContributorBadge)) :
    List (String × ContributorBadge) × Nat :=
  (batchArray badges 1000).foldl
    (fun acc batch => batch.foldl badgeInsertStep acc)
    (store, 0)

/-- `lib/db.ts` `addActivities`, one row: `INSERT ... ON CONFLICT (slug)
DO UPDATE SET contributor, activity_definition, title, occured_at, link` —
on conflict exactly those five fields take the new values while the stored
`text`, `points` and `meta` stay. -/
def upsertActivity (store : List (String × ActivityRec)) (a : ActivityRec) :
    List (String × ActivityRec) :=
  match assocFind store a.slug with
  | none => store ++ [(a.slug, a)]
  | some old =>
      setAssoc store a.slug
        { old with
          contributor := a.contributor
          activity_definition := a.activity_definition
          title := a.title
          occured_at := a.occured_at
          link := a.link }

/-- `lib/db.ts` `addActivities`: batched conflict-updating insert of
activity rows. -/
def addActivities (activities : List ActivityRec)
    (store : List (String × ActivityRec)) : List (String × ActivityRec) :=
  (batchArray activities 1000).foldl
    (fun s batch => batch.foldl upsertActivity s) store

/-- A stored `contributor` row: the three inserted columns plus the
`role` column, which the insert leaves at its database default. -/
structure ContributorRec : Type where
  username : String
  avatar_url : String
  social_profiles : String
  role : String
deriving DecidableEq

/-- The row values `addContributors` derives for a username. -/
def contributorValues (c : String) : ContributorRec :=
  { username := c
    avatar_url := "https://avatars.githubusercontent.com/" ++ c
    social_profiles := "\x7b\"github\":\"https://github.com/" ++ c ++ "\"\x7d"
    role := "member" }

/-- One row of the contributor `INSERT ... ON CONFLICT (username)
DO NOTHING`: a silent no-op when the username exists, an insert of the
derived row values otherwise. -/
def contributorInsertStep (acc : List (String × ContributorRec) × Nat)
    (c : String) : List (String × ContributorRec) × Nat :=
  match assocFind acc.1 c with
  | some _ => acc
  | none => (acc.1 ++ [(c, contributorValues c)], acc.2 + 1)

/-- `lib/db.ts` `addContributors`: deduplicate the usernames, then batched
`INSERT ... ON CONFLICT (username) DO NOTHING` — existing rows are left
untouched — reporting how many rows were actually inserted. -/
def addContributors (contributors : List String)
    (store : List (String × ContributorRec)) :
    List (String × ContributorRec) × Nat :=
  (batchArray (removeDuplicates contributors) 1000).foldl
    (fun acc batch => batch.foldl contributorInsertStep acc)
    (store, 0)

/-- The sequence of store submissions `addContributors` performs: the
usernames are deduplicated and then written batch by batch. -/
def addContributorsBatches (contributors : List String) : List (List String) :=
  batchArray (removeDuplicates contributors) 1000

/-- The sequence of store submissions `updateBotRoles` performs: early
return on an empty input, otherwise deduplicate and write batch by batch. -/
def updateBotRolesBatches (botUsernames : List String) : List (List String) :=
  if botUsernames.length = 0 then []
  else batchArray (removeDuplicates botUsernames) 1000

theorem badgeCandidatesFor_fields (b : ContributorBadge) (c : String)
    (pc : PRCount) (h : b ∈ badgeCandidatesFor c pc) :
    b.contributor = c ∧ b.achieved_on = pc.first_merged_at := by
  rcases List.mem_filterMap.mp h with ⟨th, _, hth⟩
  by_cases hc : th.2 ≤ pc.count
  · rw [if_pos hc] at hth
    injection hth with hb
    subst hb
    exact ⟨rfl, rfl⟩
  · rw [if_neg hc] at hth
    exact absurd hth (by simp)

theorem award_contributor_mem_keys (prCounts : List (String × PRCount))
    (b : ContributorBadge) (h : b ∈ awardProblemSolvingBadges prCounts) :
    b.contributor ∈ prCounts.map Prod.fst := by
  rcases List.mem_flatMap.mp h with ⟨e, he, hb⟩
  rcases badgeCandidatesFor_fields b e.1 e.2 hb with ⟨hc, _⟩
  rw [hc]
  exact List.mem_map_of_mem Prod.fst he

theorem filter_badgeCandidatesFor_self (c : String) (pc : PRCount) :
    (badgeCandidatesFor c pc).filter (fun b => b.contributor == c) =
      badgeCandidatesFor c pc :=
  List.filter_eq_self.mpr fun b hb => by
    rcases badgeCandidatesFor_fields b c pc hb with ⟨hc, _⟩
    simp [hc]

theorem filter_badgeCandidatesFor_ne (c c' : String) (pc : PRCount)
    (h : c' ≠ c) :
    (badgeCandidatesFor c' pc).filter (fun b => b.contributor == c) = [] :=
  List.filter_eq_nil_iff.mpr fun b hb => by
    rcases badgeCandidatesFor_fields b c' pc hb with ⟨hc, _⟩
    simp [hc, h]

theorem award_filter_contributor (prCounts : List (String × PRCount))
    (c : String) (pc : PRCount) (hnd : (prCounts.map Prod.fst).Nodup)
    (hmem : (c, pc) ∈ prCounts) :
    (awardProblemSolvingBadges prCounts).filter (fun b => b.contributor == c) =
      badgeCandidatesFor c pc := by
  induction prCounts with
  | nil => simp at hmem
  | cons e rest ih =>
    rw [List.map_cons, List.nodup_cons] at hnd
    rcases hnd with ⟨hknot, hkrest⟩
    rw [awardProblemSolvingBadges, List.flatMap_cons, List.filter_append]
    have hrestfold :
        rest.flatMap (fun e => badgeCandidatesFor e.1 e.2) =
          awardProblemSolvingBadges rest := rfl
    rw [hrestfold]
    rcases List.mem_cons.mp hmem with heq | hrest
    · have he1 : e.1 = c := by rw [← heq]
      have he2 : e.2 = pc := by rw [← heq]
      have hnilr :
          (awardProblemSolvingBadges rest).filter (fun b => b.contributor == c) = [] := by
        apply List.filter_eq_nil_iff.mpr
        intro b hb
        have hkey := award_contributor_mem_keys rest b hb
        simp only [beq_iff_eq]
        intro hbc
        rw [hbc, ← he1] at hkey
        exact hknot hkey
      rw [he1, he2, filter_badgeCandidatesFor_self, hnilr, List.append_nil]
    · have hne : e.1 ≠ c := by
        intro hh
        apply hknot
        rw [hh]
        exact List.mem_map_of_mem Prod.fst hrest
      rw [filter_badgeCandidatesFor_ne c e.1 e.2 hne, List.nil_append]
      exact ih hkrest hrest

theorem thresholds_req_unique (v : String) (r r' : Nat)
    (h : (v, r) ∈ thresholds) (h' : (v, r') ∈ thresholds) : r = r' := by
  simp only [thresholds, List.mem_cons, List.not_mem_nil, or_false,
    Prod.mk.injEq] at h h'
  rcases h with ⟨rfl, rfl⟩ | ⟨rfl, rfl⟩ | ⟨rfl, rfl⟩ | ⟨rfl, rfl⟩ | ⟨rfl, rfl⟩ <;>
    simp +decide at h' <;> omega

/-- C2: with the threshold ladder [2, 16, 128, 1024, 8192] for variants
1x..5x, a contributor whose PR-merged count is 16 is awarded exactly the
variants 1x and 2x; in general a candidate for a variant is generated for a
contributor if and only if the contributor's count reaches that variant's
requirement, so all qualifying variants are awarded in one run. -/
theorem award_threshold_monotonic (prCounts : List (String × PRCount))
    (c : String) (pc : PRCount) (hnd : (prCounts.map Prod.fst).Nodup)
    (hmem : (c, pc) ∈ prCounts) :
    (pc.count = 16 →
      ((awardProblemSolvingBadges prCounts).filter
          (fun b => b.contributor == c)).map (·.variant) = ["1x", "2x"]) ∧
    (∀ (v : String) (req : Nat), (v, req) ∈ thresholds →
      ((∃ b ∈ awardProblemSolvingBadges prCounts,
          b.contributor = c ∧ b.variant = v) ↔ req ≤ pc.count)) := by
  have hfilter := award_filter_contributor prCounts c pc hnd hmem
  constructor
  · intro h16
    rw [hfilter]
    rcases pc with ⟨cnt, fm⟩
    simp only at h16
    subst h16
    simp +decide [badgeCandidatesFor, thresholds]
  · intro v req hth
    constructor
    · rintro ⟨b, hb, hbc, hbv⟩
      have hbf : b ∈ (awardProblemSolvingBadges prCounts).filter
          (fun b => b.contributor == c) :=
        List.mem_filter.mpr ⟨hb, by simp [hbc]⟩
      rw [hfilter] at hbf
      rcases List.mem_filterMap.mp hbf with ⟨th, hthm, heq⟩
      by_cases hle : th.2 ≤ pc.count
      · rw [if_pos hle] at heq
        injection heq with hbeq
        have hv : th.1 = v := by rw [← hbeq] at hbv; exact hbv
        have hthv : (v, th.2) ∈ thresholds := by
          have : th = (v, th.2) := by
            rcases th with ⟨t1, t2⟩
            simp only at hv
            rw [hv]
          rw [← this]
          exact hthm
        rw [← thresholds_req_unique v th.2 req hthv hth]
        exact hle
      · rw [if_neg hle] at heq
        exact absurd heq (by simp)
    · intro hreq
      refine ⟨{ slug := "problem_solving__" ++ c ++ "__" ++ v
                badge := "problem_solving"
                contributor := c
                variant := v
                achieved_on := pc.first_merged_at
                meta_pr_count := pc.count
                meta_threshold := req
                meta_awarded_by := "automated" }, ?_, rfl, rfl⟩
      apply List.mem_flatMap.mpr
      refine ⟨(c, pc), hmem, ?_⟩
      apply List.mem_filterMap.mpr
      exact ⟨(v, req), hth, by rw [if_pos hreq]⟩

/-- Witness for C2: one contributor with count 16 receives exactly the 1x
and 2x variants. -/
theorem award_threshold_monotonic_witness :
    ((awardProblemSolvingBadges [("u", ⟨16, 100⟩)]).filter
        (fun b => b.contributor == "u")).map (·.variant) = ["1x", "2x"] :=
  (award_threshold_monotonic [("u", ⟨16, 100⟩)] "u" ⟨16, 100⟩ (by simp)
    (by simp)).1 rfl

theorem getPRMergedCounts_mem (acts : List ActivityRec) (e : String × PRCount)
    (h : e ∈ getPRMergedCounts acts) :
    e.1 ∈ removeDuplicates ((mergedActs acts).map (·.contributor)) ∧
      e.2 = { count := (mergedTimes acts e.1).length
              first_merged_at := (sqlMin (mergedTimes acts e.1)).getD 0 } := by
  rcases List.mem_map.mp h with ⟨c, hc, hce⟩
  cases hce
  exact ⟨hc, rfl⟩

theorem sqlMin_isSome (ts : List Int) (h : ts ≠ []) :
    ∃ m, sqlMin ts = some m := by
  match ts with
  | [] => exact absurd rfl h
  | t :: rest =>
    rcases h2 : sqlMin rest with _ | m
    · exact ⟨t, by rw [sqlMin, h2]⟩
    · exact ⟨min t m, by rw [sqlMin, h2]⟩

theorem mergedTimes_ne_nil (acts : List ActivityRec) (c : String)
    (hc : c ∈ removeDuplicates ((mergedActs acts).map (·.contributor))) :
    mergedTimes acts c ≠ [] := by
  rw [mem_removeDuplicates] at hc
  rcases List.mem_map.mp hc with ⟨a, ha, hac⟩
  have hmem : a ∈ (mergedActs acts).filter fun a => a.contributor = c :=
    List.mem_filter.mpr ⟨ha, by simp [hac]⟩
  intro hnil
  rw [mergedTimes, List.map_eq_nil_iff] at hnil
  rw [hnil] at hmem
  simp at hmem

theorem mergedTimes_eq (acts : List ActivityRec) (c : String) :
    mergedTimes acts c =
      (acts.filter fun a =>
        a.activity_definition = "pr_merged" ∧ a.contributor = c).map
          (·.occured_at) := by
  rw [mergedTimes, mergedActs, List.filter_filter]
  congr 1
  apply List.filter_congr
  intro a _
  by_cases h1 : a.activity_definition = "pr_merged" <;>
    by_cases h2 : a.contributor = c <;> simp [h1, h2]

/-- C3: every candidate award's achieved-on date equals the timestamp of the
contributor's first qualifying (PR-merged) activity — the minimum
`occured_at` over that contributor's PR-merged activities — and every
variant the same contributor qualifies for carries that same date. -/
theorem award_achieved_on_first (acts : List ActivityRec) :
    (∀ b ∈ awardProblemSolvingBadges (getPRMergedCounts acts),
      sqlMin ((acts.filter fun a =>
          a.activity_definition = "pr_merged" ∧ a.contributor = b.contributor).map
            (·.occured_at)) = some b.achieved_on) ∧
    (∀ b ∈ awardProblemSolvingBadges (getPRMergedCounts acts),
      ∀ b' ∈ awardProblemSolvingBadges (getPRMergedCounts acts),
        b.contributor = b'.contributor → b.achieved_on = b'.achieved_on) := by
  have key : ∀ b ∈ awardProblemSolvingBadges (getPRMergedCounts acts),
      b.achieved_on = (sqlMin (mergedTimes acts b.contributor)).getD 0 ∧
        mergedTimes acts b.contributor ≠ [] := by
    intro b hb
    rcases List.mem_flatMap.mp hb with ⟨e, he, hcand⟩
    rcases badgeCandidatesFor_fields b e.1 e.2 hcand with ⟨hbc, hba⟩
    rcases getPRMergedCounts_mem acts e he with ⟨hkey, hpc⟩
    rw [hbc]
    constructor
    · rw [hba, hpc]
    · exact mergedTimes_ne_nil acts e.1 hkey
  constructor
  · intro b hb
    rcases key b hb with ⟨hach, hne⟩
    rcases sqlMin_isSome _ hne with ⟨m, hm⟩
    rw [← mergedTimes_eq, hm, hach, hm]
    rfl
  · intro b hb b' hb' hcc
    rcases key b hb with ⟨h1, _⟩
    rcases key b' hb' with ⟨h2, _⟩
    rw [h1, h2, hcc]

/-- Witness for C3 at a two-activity log: the awarded 1x badge carries the
earlier of the two PR-merged timestamps. -/
theorem award_achieved_on_first_witness :
    sqlMin ((([
        { slug := "s1", contributor := "u", activity_definition := "pr_merged",
          title := none, occured_at := 5, link := none, text := none,
          points := none, meta := none },
        { slug := "s2", contributor := "u", activity_definition := "pr_merged",
          title := none, occured_at := 3, link := none, text := none,
          points := none, meta := none }] : List ActivityRec).filter fun a =>
          a.activity_definition = "pr_merged" ∧ a.contributor = "u").map
            (·.occured_at)) = some 3 := by
  have h := (award_achieved_on_first [
        { slug := "s1", contributor := "u", activity_definition := "pr_merged",
          title := none, occured_at := 5, link := none, text := none,
          points := none, meta := none },
        { slug := "s2", contributor := "u", activity_definition := "pr_merged",
          title := none, occured_at := 3, link := none, text := none,
          points := none, meta := none }]).1
      { slug := "problem_solving__u__1x", badge := "problem_solving",
        contributor := "u", variant := "1x", achieved_on := 3,
        meta_pr_count := 2, meta_threshold := 2, meta_awarded_by := "automated" }
      (by simp +decide [awardProblemSolvingBadges, getPRMergedCounts, mergedActs,
        mergedTimes, removeDuplicates, sqlMin, badgeCandidatesFor, thresholds,
        min_def])
  exact h

theorem foldl_foldl_flatten {α β : Type} (f : β → α → β) (ll : List (List α))
    (i : β) : ll.foldl (fun a l => l.foldl f a) i = ll.flatten.foldl f i := by
  induction ll generalizing i with
  | nil => rfl
  | cons h t ih => simp [List.foldl_append, ih]

theorem assocFind_append_singleton_self {κ β : Type} [DecidableEq κ]
    (s : List (κ × β)) (k : κ) (v : β) (h : assocFind s k = none) :
    assocFind (s ++ [(k, v)]) k = some v := by
  rw [assocFind_append, h, assocFind, if_pos rfl]

theorem upsertContributorBadges_eq (badges : List ContributorBadge)
    (store : List (String × ContributorBadge)) :
    upsertContributorBadges badges store =
      badges.foldl badgeInsertStep (store, 0) := by
  rw [upsertContributorBadges, foldl_foldl_flatten,
    join_batchArray badges 1000 (by decide)]

theorem badgeInsertStep_foldl_append (badges : List ContributorBadge) :
    ∀ acc : List (String × ContributorBadge) × Nat,
      ∃ t, (badges.foldl badgeInsertStep acc).1 = acc.1 ++ t := by
  induction badges with
  | nil => exact fun acc => ⟨[], by simp⟩
  | cons b rest ih =>
    intro acc
    rw [List.foldl_cons]
    rcases h : assocFind acc.1 b.slug with _ | w
    · have hstep : badgeInsertStep acc b = (acc.1 ++ [(b.slug, b)], acc.2 + 1) := by
        rw [badgeInsertStep, h]
      rw [hstep]
      rcases ih (acc.1 ++ [(b.slug, b)], acc.2 + 1) with ⟨t, ht⟩
      exact ⟨(b.slug, b) :: t, by rw [ht]; simp⟩
    · have hstep : badgeInsertStep acc b = acc := by rw [badgeInsertStep, h]
      rw [hstep]
      exact ih acc


theorem badgeInsertStep_foldl_preserves (badges : List ContributorBadge)
    (acc : List (String × ContributorBadge) × Nat) (k : String)
    (v : ContributorBadge) (h : assocFind acc.1 k = some v) :
    assocFind (badges.foldl badgeInsertStep acc).1 k = some v := by
  rcases badgeInsertStep_foldl_append badges acc with ⟨t, ht⟩
  rw [ht]
  exact assocFind_append_left acc.1 t k v h

theorem badgeInsertStep_foldl_all_present (badges : List ContributorBadge) :
    ∀ acc : List (String × ContributorBadge) × Nat, ∀ b ∈ badges,
      ∃ w, assocFind (badges.foldl badgeInsertStep acc).1 b.slug = some w := by
  induction badges with
  | nil => intro acc b hb; simp at hb
  | cons b0 rest ih =>
    intro acc b hb
    rw [List.foldl_cons]
    rcases List.mem_cons.mp hb with heq | hrest
    · subst heq
      rcases h : assocFind acc.1 b.slug with _ | w
      · have hstep : badgeInsertStep acc b = (acc.1 ++ [(b.slug, b)], acc.2 + 1) := by
          rw [badgeInsertStep, h]
        refine ⟨b, ?_⟩
        rw [hstep]
        exact badgeInsertStep_foldl_preserves rest _ b.slug b
          (assocFind_append_singleton_self acc.1 b.slug b h)
      · have hstep : badgeInsertStep acc b = acc := by rw [badgeInsertStep, h]
        refine ⟨w, ?_⟩
        rw [hstep]
        exact badgeInsertStep_foldl_preserves rest acc b.slug w h
    · exact ih (badgeInsertStep acc b0) b hrest

theorem badgeInsertStep_foldl_noop (badges : List ContributorBadge) :
    ∀ acc : List (String × ContributorBadge) × Nat,
      (∀ b ∈ badges, ∃ w, assocFind acc.1 b.slug = some w) →
      badges.foldl badgeInsertStep acc = acc := by
  induction badges with
  | nil => intro acc _; rfl
  | cons b0 rest ih =>
    intro acc h
    rcases h b0 (List.mem_cons_self b0 rest) with ⟨w, hw⟩
    have hstep : badgeInsertStep acc b0 = acc := by rw [badgeInsertStep, hw]
    rw [List.foldl_cons, hstep]
    exact ih acc fun b hb => h b (List.mem_cons_of_mem b0 hb)

/-- C5: badge awarding is append-only and idempotent: upserting the
candidate set never changes an existing stored award (same key keeps the
same row, so nothing is overwritten, re-dated or revoked), and running the
identical upsert a second time leaves the store unchanged with an
affected-count of 0. -/
theorem award_append_only_idempotent (prCounts : List (String × PRCount))
    (store : List (String × ContributorBadge)) :
    (∀ (k : String) (v : ContributorBadge), assocFind store k = some v →
      assocFind
        (upsertContributorBadges (awardProblemSolvingBadges prCounts) store).1 k
        = some v) ∧
    upsertContributorBadges (awardProblemSolvingBadges prCounts)
        (upsertContributorBadges (awardProblemSolvingBadges prCounts) store).1 =
      ((upsertContributorBadges (awardProblemSolvingBadges prCounts) store).1, 0) := by
  constructor
  · intro k v h
    rw [upsertContributorBadges_eq]
    exact badgeInsertStep_foldl_preserves _ (store, 0) k v h
  · rw [upsertContributorBadges_eq, upsertContributorBadges_eq]
    apply badgeInsertStep_foldl_noop
    intro b hb
    exact badgeInsertStep_foldl_all_present _ (store, 0) b hb

/-- Witness for C5: an existing stored award survives an awarding pass
untouched. -/
theorem award_append_only_idempotent_witness :
    assocFind
      (upsertContributorBadges (awardProblemSolvingBadges [("u", ⟨2, 7⟩)])
        [("problem_solving__u__1x",
          { slug := "problem_solving__u__1x", badge := "problem_solving",
            contributor := "u", variant := "1x", achieved_on := 1,
            meta_pr_count := 2, meta_threshold := 2,
            meta_awarded_by := "manual" })]).1
      "problem_solving__u__1x" =
      some
        { slug := "problem_solving__u__1x", badge := "problem_solving",
          contributor := "u", variant := "1x", achieved_on := 1,
          meta_pr_count := 2, meta_threshold := 2,
          meta_awarded_by := "manual" } :=
  (award_append_only_idempotent [("u", ⟨2, 7⟩)] _).1 "problem_solving__u__1x" _
    (by simp [assocFind])

theorem assocFind_append_none {κ β : Type} [DecidableEq κ] (s t : List (κ × β))
    (k : κ) (h : assocFind s k = none) : assocFind (s ++ t) k = assocFind t k := by
  rw [assocFind_append, h]

theorem assocFind_append_singleton_ne {κ β : Type} [DecidableEq κ]
    (s : List (κ × β)) (k k' : κ) (v : β) (hne : k ≠ k') :
    assocFind (s ++ [(k, v)]) k' = assocFind s k' := by
  induction s with
  | nil => simp [assocFind, hne]
  | cons kv rest ih =>
    rcases kv with ⟨k0, v0⟩
    by_cases hk : k0 = k' <;> simp [assocFind, hk, ih]

theorem addActivities_singleton (store : List (String × ActivityRec))
    (a : ActivityRec) : addActivities [a] store = upsertActivity store a := by
  rw [addActivities, foldl_foldl_flatten, join_batchArray [a] 1000 (by decide)]
  rfl

/-- C6: re-ingesting an activity whose slug is already stored overwrites
exactly the mutable fields (contributor, activity kind, title, occurrence
timestamp, link) with the new values — in particular a new title does
replace the stored title and the activity kind is never lost — while the
stored text, points and meta fields remain unchanged. -/
theorem addActivities_update_on_conflict (store : List (String × ActivityRec))
    (old a : ActivityRec) (h : assocFind store a.slug = some old) :
    ∃ r, assocFind (addActivities [a] store) a.slug = some r ∧
      r.contributor = a.contributor ∧
      r.activity_definition = a.activity_definition ∧
      r.title = a.title ∧ r.occured_at = a.occured_at ∧ r.link = a.link ∧
      r.text = old.text ∧ r.points = old.points ∧ r.meta = old.meta := by
  rw [addActivities_singleton, upsertActivity, h]
  refine ⟨{ old with
              contributor := a.contributor
              activity_definition := a.activity_definition
              title := a.title
              occured_at := a.occured_at
              link := a.link },
          ?_, rfl, rfl, rfl, rfl, rfl, rfl, rfl, rfl⟩
  exact assocFind_setAssoc_self store a.slug _

/-- Witness for C6: re-submitting slug s1 with a new title changes the
stored title but keeps the stored text, points and meta. -/
theorem addActivities_update_on_conflict_witness :
    ∃ r, assocFind
        (addActivities
          [{ slug := "s1", contributor := "u2", activity_definition := "pr_merged",
             title := some "new title", occured_at := 9, link := some "l2",
             text := none, points := none, meta := none }]
          [("s1",
            { slug := "s1", contributor := "u1",
              activity_definition := "pr_opened", title := some "old title",
              occured_at := 4, link := some "l1", text := some "body",
              points := some 2, meta := some "m" })]) "s1" = some r ∧
      r.contributor = "u2" ∧ r.activity_definition = "pr_merged" ∧
      r.title = some "new title" ∧ r.occured_at = 9 ∧ r.link = some "l2" ∧
      r.text = some "body" ∧ r.points = some 2 ∧ r.meta = some "m" :=
  addActivities_update_on_conflict
    [("s1",
      { slug := "s1", contributor := "u1", activity_definition := "pr_opened",
        title := some "old title", occured_at := 4, link := some "l1",
        text := some "body", points := some 2, meta := some "m" })]
    { slug := "s1", contributor := "u1", activity_definition := "pr_opened",
      title := some "old title", occured_at := 4, link := some "l1",
      text := some "body", points := some 2, meta := some "m" }
    { slug := "s1", contributor := "u2", activity_definition := "pr_merged",
      title := some "new title", occured_at := 9, link := some "l2",
      text := none, points := none, meta := none }
    (by simp [assocFind])

theorem addContributors_eq (contributors : List String)
    (store : List (String × ContributorRec)) :
    addContributors contributors store =
      (removeDuplicates contributors).foldl contributorInsertStep (store, 0) := by
  rw [addContributors, foldl_foldl_flatten,
    join_batchArray (removeDuplicates contributors) 1000 (by decide)]

theorem contributorInsertStep_foldl_append (cs : List String) :
    ∀ acc : List (String × ContributorRec) × Nat,
      ∃ t, (cs.foldl contributorInsertStep acc).1 = acc.1 ++ t := by
  induction cs with
  | nil => exact fun acc => ⟨[], by simp⟩
  | cons c rest ih =>
    intro acc
    rw [List.foldl_cons]
    rcases h : assocFind acc.1 c with _ | w
    · have hstep : contributorInsertStep acc c =
          (acc.1 ++ [(c, contributorValues c)], acc.2 + 1) := by
        rw [contributorInsertStep, h]
      rw [hstep]
      rcases ih (acc.1 ++ [(c, contributorValues c)], acc.2 + 1) with ⟨t, ht⟩
      exact ⟨(c, contributorValues c) :: t, by rw [ht]; simp⟩
    · have hstep : contributorInsertStep acc c = acc := by
        rw [contributorInsertStep, h]
      rw [hstep]
      exact ih acc

theorem contributorInsertStep_foldl_preserves (cs : List String)
    (acc : List (String × ContributorRec) × Nat) (k : String)
    (v : ContributorRec) (h : assocFind acc.1 k = some v) :
    assocFind (cs.foldl contributorInsertStep acc).1 k = some v := by
  rcases contributorInsertStep_foldl_append cs acc with ⟨t, ht⟩
  rw [ht]
  exact assocFind_append_left acc.1 t k v h

theorem contributorInsertStep_foldl_count (cs : List String) :
    ∀ acc : List (String × ContributorRec) × Nat, cs.Nodup →
      (cs.foldl contributorInsertStep acc).2 =
        acc.2 + (cs.filter (fun c => (assocFind acc.1 c).isNone)).length := by
  induction cs with
  | nil => intro acc _; simp
  | cons c rest ih =>
    intro acc hnd
    rcases List.nodup_cons.mp hnd with ⟨hc, hrest⟩
    rw [List.foldl_cons]
    rcases h : assocFind acc.1 c with _ | w
    · have hstep : contributorInsertStep acc c =
          (acc.1 ++ [(c, contributorValues c)], acc.2 + 1) := by
        rw [contributorInsertStep, h]
      rw [hstep, ih _ hrest]
      have hcongr :
          rest.filter
              (fun u => (assocFind (acc.1 ++ [(c, contributorValues c)]) u).isNone)
            = rest.filter (fun u => (assocFind acc.1 u).isNone) := by
        apply List.filter_congr
        intro u hu
        have hne : c ≠ u := fun hh => hc (hh ▸ hu)
        rw [assocFind_append_singleton_ne acc.1 c u (contributorValues c) hne]
      rw [hcongr, List.filter_cons_of_pos (by rw [h]; rfl)]
      simp only [List.length_cons]
      omega
    · have hstep : contributorInsertStep acc c = acc := by
        rw [contributorInsertStep, h]
      rw [hstep, ih _ hrest, List.filter_cons_of_neg (by rw [h]; simp)]

/-- C7: re-submitting an already-stored contributor is a silent no-op: the
stored row (avatar and social-profile fields included) is unchanged after
the call, the existing username is not counted in the affected-count, and
the reported affected-count is exactly the number of genuinely new
usernames. -/
theorem addContributors_ignore_on_conflict (cs : List String)
    (store : List (String × ContributorRec)) (u : String) (r : ContributorRec)
    (h : assocFind store u = some r) (_hu : u ∈ cs) :
    assocFind (addContributors cs store).1 u = some r ∧
      (addContributors cs store).2 =
        ((removeDuplicates cs).filter
          (fun c => (assocFind store c).isNone)).length ∧
      u ∉ (removeDuplicates cs).filter (fun c => (assocFind store c).isNone) := by
  refine ⟨?_, ?_, ?_⟩
  · rw [addContributors_eq]
    exact contributorInsertStep_foldl_preserves _ (store, 0) u r h
  · rw [addContributors_eq,
      contributorInsertStep_foldl_count _ (store, 0) (nodup_removeDuplicates cs)]
    simp
  · intro hmem
    have hpred := (List.mem_filter.mp hmem).2
    rw [h] at hpred
    simp at hpred

/-- Witness for C7: a stored row for username u with a hand-written avatar
survives a re-submission of u untouched, and only the new username v is
counted. -/
theorem addContributors_ignore_on_conflict_witness :
    assocFind
        (addContributors ["u", "v", "u"]
          [("u", ({ username := "u", avatar_url := "custom",
                    social_profiles := "sp", role := "member" } : ContributorRec))]).1
        "u" =
      some ({ username := "u", avatar_url := "custom", social_profiles := "sp",
              role := "member" } : ContributorRec) ∧
      (addContributors ["u", "v", "u"]
          [("u", ({ username := "u", avatar_url := "custom",
                    social_profiles := "sp", role := "member" } : ContributorRec))]).2 =
        ((removeDuplicates ["u", "v", "u"]).filter
          (fun c =>
            (assocFind
              [("u", ({ username := "u", avatar_url := "custom",
                        social_profiles := "sp",
                        role := "member" } : ContributorRec))] c).isNone)).length ∧
      "u" ∉ (removeDuplicates ["u", "v", "u"]).filter
        (fun c =>
          (assocFind
            [("u", ({ username := "u", avatar_url := "custom",
                      social_profiles := "sp",
                      role := "member" } : ContributorRec))] c).isNone) :=
  addContributors_ignore_on_conflict ["u", "v", "u"]
    [("u", ({ username := "u", avatar_url := "custom", social_profiles := "sp",
              role := "member" } : ContributorRec))]
    "u"
    ({ username := "u", avatar_url := "custom", social_profiles := "sp",
       role := "member" } : ContributorRec)
    (by simp [assocFind]) (by simp)

/-- C10: `addContributors` and `updateBotRoles` deduplicate before writing:
their submission sequences equal the ones for the duplicate-free list that
keeps the first occurrence of each username in order, and within one call
each username is submitted at most once. -/
theorem submissions_deduplicated (cs : List String) :
    addContributorsBatches cs = addContributorsBatches (keepFirstOccurrences cs) ∧
      (∀ u : String, (addContributorsBatches cs).flatten.count u ≤ 1) ∧
      updateBotRolesBatches cs = updateBotRolesBatches (keepFirstOccurrences cs) ∧
      (∀ u : String, (updateBotRolesBatches cs).flatten.count u ≤ 1) := by
  have hdk : removeDuplicates (keepFirstOccurrences cs) = removeDuplicates cs := by
    rw [← removeDuplicates_eq_keepFirstOccurrences cs]
    exact removeDuplicates_of_nodup _ (nodup_removeDuplicates cs)
  have hcount : ∀ u : String, (removeDuplicates cs).count u ≤ 1 :=
    List.nodup_iff_count_le_one.mp (nodup_removeDuplicates cs)
  refine ⟨?_, ?_, ?_, ?_⟩
  · rw [addContributorsBatches, addContributorsBatches, hdk]
  · intro u
    rw [addContributorsBatches, join_batchArray _ 1000 (by decide)]
    exact hcount u
  · rw [updateBotRolesBatches, updateBotRolesBatches]
    match cs, hdk with
    | [], _ => rfl
    | x :: xs, hdk =>
      have h1 : ¬ (x :: xs).length = 0 := by simp
      have h2 : ¬ (keepFirstOccurrences (x :: xs)).length = 0 := by
        rw [keepFirstOccurrences]
        simp
      rw [if_neg h1, if_neg h2, hdk]
  · intro u
    rw [updateBotRolesBatches]
    by_cases hl : cs.length = 0
    · rw [if_pos hl]
      simp
    · rw [if_neg hl, join_batchArray _ 1000 (by decide)]
      exact hcount u

end Scraper
